import Mathlib

/-!
Verification development for the relationship-and-pagination layer of the
lucid ORM.  The definitions below are a shallow embedding of the source
files:

* `SimplePaginator`            — src/unnamed/part_000
* `BelongsToQueryClient`       — src/unnamed/part_001 (first file)
* `ManyToManyQueryBuilder`     — src/unnamed/part_001 (second file)
* `PivotHelpers`               — src/unnamed/part_002 (first file)

JavaScript numbers are embedded as `Nat`/`Int` (the paginator's caller
contract makes `total`, `perPage`, `currentPage` non-negative integers);
strings are embedded as `String` or `List Char` where character-level
reasoning is needed; `undefined`-able arguments become `Option`;
calls into the external generic query builder (knex) are logged as an
explicit list of emitted query operations.
-/

/-! ## SimplePaginator (src/unnamed/part_000) -/

/-- State of a `SimplePaginator`: the constructor inputs (`total`,
`perPage`, `currentPage`, the row slice) plus the two mutable
link-configuration fields, `url` (default `"/"`) and `qs` (default empty),
set by `baseUrl` / `queryString`.  The query-string map is kept as an
association list of character lists so that serialization can be reasoned
about character by character. -/
structure SimplePaginator where
  total : Nat
  perPage : Nat
  currentPage : Nat
  rows : List String
  url : String := "/"
  qs : List (List Char × List Char) := []

/-- Embeds the `SimplePaginator` constructor: stores the four inputs and
leaves `url`/`qs` at their defaults. -/
def SimplePaginator.make (total perPage currentPage : Nat) (rows : List String) :
    SimplePaginator :=
  { total := total, perPage := perPage, currentPage := currentPage, rows := rows }

/-- Embeds `this.firstPage = 1`. -/
def SimplePaginator.firstPage (_ : SimplePaginator) : Nat := 1

/-- Embeds `this.isEmpty = this.rows.length === 0`. -/
def SimplePaginator.isEmpty (p : SimplePaginator) : Bool :=
  p.rows.length == 0

/-- Embeds `this.hasTotal = this.total > 0`. -/
def SimplePaginator.hasTotal (p : SimplePaginator) : Bool :=
  decide (0 < p.total)

/-- Embeds `this.lastPage = Math.max(Math.ceil(this.total / this.perPage), 1)`:
exact (rational) division followed by the ceiling, then the max with 1. -/
def SimplePaginator.lastPage (p : SimplePaginator) : Nat :=
  max ⌈(p.total : ℚ) / (p.perPage : ℚ)⌉₊ 1

/-- Embeds `this.hasMorePages = this.lastPage > this.currentPage`. -/
def SimplePaginator.hasMorePages (p : SimplePaginator) : Bool :=
  decide (p.currentPage < p.lastPage)

/-- Embeds `this.hasPages = this.lastPage !== 1`. -/
def SimplePaginator.hasPages (p : SimplePaginator) : Bool :=
  decide (p.lastPage ≠ 1)

/-- Embeds the ternary `page < 1 ? 1 : page` inside `getUrl`. -/
def clampPage (page : Int) : Int :=
  if page < 1 then 1 else page

/-- Decimal rendering of a natural number as characters (most significant
digit first), the serialization a JavaScript number receives inside a query
string. -/
def natRender (n : Nat) : List Char :=
  (Nat.digits 10 n).reverse.map (fun d => Char.ofNat (48 + d))

/-- Key of the page-number query parameter. -/
def pageKeyChars : List Char := ['p', 'a', 'g', 'e']

/-- Modelled from the spec: `Object.assign({}, this.qs, { page: ... })`
(the `qs` object-merge itself is outside src/).  An existing `page` key
keeps its position but receives the new value; otherwise the `page` key is
appended after the stored query-string entries. -/
def assignPage (qs : List (List Char × List Char)) (pv : List Char) :
    List (List Char × List Char) :=
  if qs.any (fun kv => kv.1 = pageKeyChars) then
    qs.map (fun kv => if kv.1 = pageKeyChars then (kv.1, pv) else kv)
  else
    qs ++ [(pageKeyChars, pv)]

/-- Interleaves the pieces of a query string with `&`. -/
def joinAmp : List (List Char) → List Char
  | [] => []
  | [x] => x
  | x :: xs => x ++ '&' :: joinAmp xs

/-- Modelled from the spec: `stringify` from the external `qs` library
"serializes the stored query-string map merged with the target page number
as a query parameter" — each entry becomes `key=value` and entries are
joined with `&` (percent-encoding elided; the round-trip theorem assumes
entries free of the metacharacters). -/
def stringifyPairs (m : List (List Char × List Char)) : List Char :=
  joinAmp (m.map fun kv => kv.1 ++ '=' :: kv.2)

/-- Query-string part of `getUrl(page)`:
`stringify(Object.assign({}, this.qs, { page: page < 1 ? 1 : page }))`. -/
def SimplePaginator.getUrlQs (p : SimplePaginator) (page : Int) : List Char :=
  stringifyPairs (assignPage p.qs (natRender (clampPage page).toNat))

/-- Embeds `getUrl(page)`: the serialized query string appended to the
stored base URL after a `?`. -/
def SimplePaginator.getUrl (p : SimplePaginator) (page : Int) : String :=
  p.url ++ "?" ++ String.mk (p.getUrlQs page)

/-- Embeds `getNextPageUrl()`: `getUrl(currentPage + 1)` when
`hasMorePages`, otherwise `null`. -/
def SimplePaginator.getNextPageUrl (p : SimplePaginator) : Option String :=
  if p.hasMorePages then some (p.getUrl ((p.currentPage : Int) + 1)) else none

/-- Embeds `getPreviousPageUrl()`: `getUrl(currentPage - 1)` when
`currentPage > 1`, otherwise `null`. -/
def SimplePaginator.getPreviousPageUrl (p : SimplePaginator) : Option String :=
  if 1 < p.currentPage then some (p.getUrl ((p.currentPage : Int) - 1)) else none

/-- Embeds `getUrlsForRange(start, end)`: one `{url, page, isActive}` entry
per page in `[start, end]`, `isActive` marking the current page. -/
def SimplePaginator.getUrlsForRange (p : SimplePaginator) (start stop : Nat) :
    List (String × Nat × Bool) :=
  (List.range' start (stop + 1 - start)).map
    (fun i => (p.getUrl (Int.ofNat i), i, decide (i = p.currentPage)))

/-! ### Query-string parsing (the reverse direction used by the C7
round-trip property) -/

/-- Accumulator-based splitting of a character list at every `&`. -/
def splitAmpAux : List Char → List Char → List (List Char)
  | [], acc => [acc.reverse]
  | c :: rest, acc =>
    if c = '&' then acc.reverse :: splitAmpAux rest []
    else splitAmpAux rest (c :: acc)

/-- Splits a serialized query string into its `&`-separated pieces. -/
def splitAmp (cs : List Char) : List (List Char) :=
  splitAmpAux cs []

/-- Accumulator-based splitting of a piece at its first `=`. -/
def splitEqAux : List Char → List Char → List Char × List Char
  | [], acc => (acc.reverse, [])
  | c :: rest, acc =>
    if c = '=' then (acc.reverse, rest)
    else splitEqAux rest (c :: acc)

/-- Splits a `key=value` piece into key and value at the first `=`. -/
def splitEq1 (cs : List Char) : List Char × List Char :=
  splitEqAux cs []

/-- Decimal reading of a character list (inverse of `natRender`). -/
def parseNatChars (cs : List Char) : Nat :=
  cs.foldl (fun acc c => 10 * acc + (c.toNat - 48)) 0

/-- Reads the `page` parameter back out of a serialized query string. -/
def parsePageQs (cs : List Char) : Option Nat :=
  (splitAmp cs).findSome? fun piece =>
    let kv := splitEq1 piece
    if kv.1 = pageKeyChars then some (parseNatChars kv.2) else none

/-- Entry of the stored query-string map that is free of the serializer's
metacharacters (no `&` anywhere, no `=` in the key); the `qs` library
guarantees this through percent-encoding, which the model elides. -/
def benignEntry (kv : List Char × List Char) : Prop :=
  ('&' ∉ kv.1) ∧ ('=' ∉ kv.1) ∧ ('&' ∉ kv.2)

instance (kv : List Char × List Char) : Decidable (benignEntry kv) := by
  unfold benignEntry
  infer_instance

/-! ## ManyToMany relation and query builder
(src/unnamed/part_001 second file, src/unnamed/part_002 first file) -/

/-- Immutable descriptor of a many-to-many relation: the fields of the
`ManyToMany` relation object that the query builder and the pivot helpers
read.  `relatedTableName` is `relation.relatedModel().table`, captured by
the builder as `this.relatedTable`. -/
structure ManyToMany where
  pivotTable : String
  pivotForeignKey : String
  pivotRelatedForeignKey : String
  localKey : String
  relatedKeyColumnName : String
  relatedTableName : String
  relatedPrimaryKey : String
  pivotColumns : List String
  pivotTimestamps : List String
  pivotColumnsAlias : String
  relationName : String

/-- Modelled from the spec: `relation.pivotAlias(column)` (defined on the
relation class, outside src/) aliases a pivot column using "an alias prefix
for pivot columns in result rows". -/
def ManyToMany.pivotAlias (r : ManyToMany) (column : String) : String :=
  r.pivotColumnsAlias ++ column

/-- Parent side of the builder: a single row or, in eager-load mode, many
rows.  Only the parent's local-key value is ever read (the `getValue`
utility extracts exactly that), so rows are embedded as those values. -/
inductive ParentRef where
  | one (localKeyValue : String)
  | many (localKeyValues : List String)
deriving DecidableEq

/-- Operation emitted into the underlying generic (knex) query builder.
The spec treats that builder as an external collaborator, so the embedding
logs each call made into it instead of building SQL. -/
inductive QueryOp where
  | selectOp (columns : List String)
  | fromOp (table : String)
  | innerJoinOp (table c1 c2 : String)
  | whereOp (method key : String) (operator value : Option String)
  | whereInOp (method key : String) (values : List String)
  | wrapExistingOp
  | pojoOp
deriving DecidableEq

/-- Mutable state of a `ManyToManyQueryBuilder`: its class fields, the two
pieces of base-builder state its methods consult (`queryAction()` and
`hasAggregates`), and the log of operations emitted into the underlying
query. -/
structure MMState where
  relation : ManyToMany
  parent : ParentRef
  pivotQuery : Bool := false
  cherryPickingKeys : Bool := false
  appliedConstraints : Bool := false
  isRelatedPreloadQuery : Bool := false
  queryAction : String := "select"
  hasAggregates : Bool := false
  ops : List QueryOp := []

/-- Embeds the getter `isPivotOnlyQuery`. -/
def MMState.isPivotOnlyQuery (s : MMState) : Bool := s.pivotQuery

/-- Embeds the setter `isPivotOnlyQuery = pivotOnly`: stores the flag and
calls `this.pojo()` on the underlying query when turning pivot-only. -/
def MMState.setIsPivotOnlyQuery (s : MMState) (pivotOnly : Bool) : MMState :=
  let s := { s with pivotQuery := pivotOnly }
  if pivotOnly then { s with ops := s.ops ++ [.pojoOp] } else s

/-- Embeds `column.includes('.')`: whether the column reference is already
table-qualified.  (The dot is a single character, so substring containment
coincides with character membership.) -/
def hasDot (column : String) : Bool :=
  column.data.contains '.'

/-- Embeds `prefixRelatedTable`: a column already containing a dot passes
through unchanged, otherwise the related table's name is prefixed. -/
def MMState.prefixRelatedTable (s : MMState) (column : String) : String :=
  if hasDot column then column
  else s.relation.relatedTableName ++ "." ++ column

/-- Call into the base builder's where family (`super.where` and friends,
external): logged with the invoked method name. -/
def MMState.superWhere (s : MMState) (method key : String)
    (operator value : Option String) : MMState :=
  { s with ops := s.ops ++ [.whereOp method key operator value] }

/-- Call into the base builder's whereIn family (external). -/
def MMState.superWhereIn (s : MMState) (method key : String)
    (values : List String) : MMState :=
  { s with ops := s.ops ++ [.whereInOp method key values] }

/-- Embeds the overridden `where`: related-table prefix, then
`super.where`. -/
def MMState.«where» (s : MMState) (key : String)
    (operator value : Option String) : MMState :=
  s.superWhere "where" (s.prefixRelatedTable key) operator value

/-- Embeds the overridden `orWhere`. -/
def MMState.orWhere (s : MMState) (key : String)
    (operator value : Option String) : MMState :=
  s.superWhere "orWhere" (s.prefixRelatedTable key) operator value

/-- Embeds the overridden `whereNot`. -/
def MMState.whereNot (s : MMState) (key : String)
    (operator value : Option String) : MMState :=
  s.superWhere "whereNot" (s.prefixRelatedTable key) operator value

/-- Embeds the overridden `orWhereNot`. -/
def MMState.orWhereNot (s : MMState) (key : String)
    (operator value : Option String) : MMState :=
  s.superWhere "orWhereNot" (s.prefixRelatedTable key) operator value

/-- Embeds the overridden `whereIn`. -/
def MMState.whereIn (s : MMState) (key : String) (values : List String) : MMState :=
  s.superWhereIn "whereIn" (s.prefixRelatedTable key) values

/-- Embeds the overridden `orWhereIn`. -/
def MMState.orWhereIn (s : MMState) (key : String) (values : List String) : MMState :=
  s.superWhereIn "orWhereIn" (s.prefixRelatedTable key) values

/-- Embeds the overridden `whereNotIn`. -/
def MMState.whereNotIn (s : MMState) (key : String) (values : List String) : MMState :=
  s.superWhereIn "whereNotIn" (s.prefixRelatedTable key) values

/-- Embeds the overridden `orWhereNotIn`. -/
def MMState.orWhereNotIn (s : MMState) (key : String) (values : List String) : MMState :=
  s.superWhereIn "orWhereNotIn" (s.prefixRelatedTable key) values

/-- Embeds the dynamic dispatch `this.query[method](...)` of the pivot
helpers for the where family: the string selects one of the overridden
builder methods, defaulting to `where`. -/
def MMState.dispatchWhere (s : MMState) (method key : String)
    (operator value : Option String) : MMState :=
  if method = "orWhere" then s.orWhere key operator value
  else if method = "whereNot" then s.whereNot key operator value
  else if method = "orWhereNot" then s.orWhereNot key operator value
  else s.«where» key operator value

/-- Embeds the dynamic dispatch `this.query[method](...)` for the whereIn
family. -/
def MMState.dispatchWhereIn (s : MMState) (method key : String)
    (values : List String) : MMState :=
  if method = "orWhereIn" then s.orWhereIn key values
  else if method = "whereNotIn" then s.whereNotIn key values
  else if method = "orWhereNotIn" then s.orWhereNotIn key values
  else s.whereIn key values

/-- Embeds `PivotHelpers.prefixPivotTable` for a helper bound to a
`ManyToManyQueryBuilder` (the builder constructs its helper with itself, so
the `ManyToManySubQueryBuilder` branch of the source is never taken here):
dotted columns pass through, pivot-only queries leave the column bare,
otherwise the pivot table name is prefixed. -/
def MMState.prefixPivotTable (s : MMState) (column : String) : String :=
  if hasDot column then column
  else if s.isPivotOnlyQuery then column
  else s.relation.pivotTable ++ "." ++ column

/-- Variation tag of the pivot predicate dispatch. -/
inductive PivotVariation where
  | and
  | or
  | not
  | orNot
deriving DecidableEq

/-- Embeds the `switch (variation)` selecting the underlying where-family
method name in `PivotHelpers.wherePivot`. -/
def pivotWhereMethod : PivotVariation → String
  | .and => "where"
  | .or => "orWhere"
  | .not => "whereNot"
  | .orNot => "orWhereNot"

/-- Embeds the `switch (variation)` in `PivotHelpers.whereInPivot`. -/
def pivotWhereInMethod : PivotVariation → String
  | .and => "whereIn"
  | .or => "orWhereIn"
  | .not => "whereNotIn"
  | .orNot => "orWhereNotIn"

/-- Embeds `PivotHelpers.wherePivot` with its three call shapes: the
three-argument shape (value present) and the two-argument shape (operator
present) pivot-prefix the key, the one-argument shape forwards the key
untouched; the selected method is dispatched dynamically on the bound
builder. -/
def PivotHelpers.wherePivot (s : MMState) (variation : PivotVariation)
    (key : String) (operator value : Option String) : MMState :=
  let method := pivotWhereMethod variation
  if value.isSome then
    s.dispatchWhere method (s.prefixPivotTable key) operator value
  else if operator.isSome then
    s.dispatchWhere method (s.prefixPivotTable key) operator none
  else
    s.dispatchWhere method key none none

/-- Embeds `PivotHelpers.whereInPivot` for a single (non-array) key with a
value present, the shape the builder's constraints use: the key is
pivot-prefixed and the selected method dispatched on the bound builder. -/
def PivotHelpers.whereInPivot (s : MMState) (variation : PivotVariation)
    (key : String) (values : List String) : MMState :=
  s.dispatchWhereIn (pivotWhereInMethod variation) (s.prefixPivotTable key) values

/-- Embeds `PivotHelpers.pivotColumns` for the builder's helper
(constructed with `aliasSelectColumns = true`): each column is
pivot-prefixed and aliased through `relation.pivotAlias`, then selected on
the raw knex query. -/
def PivotHelpers.pivotColumns (s : MMState) (columns : List String) : MMState :=
  { s with ops := s.ops ++
      [.selectOp (columns.map fun c =>
        s.prefixPivotTable c ++ " as " ++ s.relation.pivotAlias c)] }

/-- Embeds the builder's `wherePivot` (and-variation). -/
def MMState.wherePivot (s : MMState) (key : String)
    (operator value : Option String) : MMState :=
  PivotHelpers.wherePivot s .and key operator value

/-- Embeds the builder's `orWherePivot`. -/
def MMState.orWherePivot (s : MMState) (key : String)
    (operator value : Option String) : MMState :=
  PivotHelpers.wherePivot s .or key operator value

/-- Embeds the builder's `whereNotPivot`. -/
def MMState.whereNotPivot (s : MMState) (key : String)
    (operator value : Option String) : MMState :=
  PivotHelpers.wherePivot s .not key operator value

/-- Embeds the builder's `orWhereNotPivot`. -/
def MMState.orWhereNotPivot (s : MMState) (key : String)
    (operator value : Option String) : MMState :=
  PivotHelpers.wherePivot s .orNot key operator value

/-- Embeds the builder's `whereInPivot` (and-variation). -/
def MMState.whereInPivot (s : MMState) (key : String) (values : List String) : MMState :=
  PivotHelpers.whereInPivot s .and key values

/-- Embeds the builder's `pivotColumns`. -/
def MMState.pivotColumns (s : MMState) (columns : List String) : MMState :=
  PivotHelpers.pivotColumns s columns

/-- Embeds `transformRelatedTableColumns` for string columns: pivot-only
queries keep columns untouched, otherwise each is related-table prefixed
(the base builder's `resolveKey` naming-strategy resolution, an external
collaborator, is the identity here). -/
def MMState.transformRelatedTableColumns (s : MMState) (columns : List String) :
    List String :=
  if s.isPivotOnlyQuery then columns
  else columns.map fun column => s.prefixRelatedTable column

/-- Embeds the overridden `select`: marks cherry-picking and selects the
transformed column names on the raw query. -/
def MMState.select (s : MMState) (columns : List String) : MMState :=
  let s' := { s with cherryPickingKeys := true }
  { s' with ops := s'.ops ++ [.selectOp (s'.transformRelatedTableColumns columns)] }

/-- Call into the base builder's `wrapExisting` (external), which groups
the already-added clauses; logged as an operation. -/
def MMState.wrapExisting (s : MMState) : MMState :=
  { s with ops := s.ops ++ [.wrapExistingOp] }

/-- Call into the base builder's `from` (external). -/
def MMState.fromTable (s : MMState) (table : String) : MMState :=
  { s with ops := s.ops ++ [.fromOp table] }

/-- Call into the base builder's `innerJoin` (external). -/
def MMState.innerJoin (s : MMState) (table c1 c2 : String) : MMState :=
  { s with ops := s.ops ++ [.innerJoinOp table c1 c2] }

/-- Embeds the `unique` utility: keeps the first occurrence of each value,
like `[...new Set(xs)]`. -/
def uniqueList : List String → List String
  | [] => []
  | x :: xs => x :: uniqueList (xs.filter (fun y => y ≠ x))
termination_by l => l.length
decreasing_by
  simp only [List.length_cons]
  exact Nat.lt_succ_of_le (List.length_filter_le _ _)

/-- Embeds `addWhereConstraints`: the eager (array-parent) case adds a
pivot `whereIn` over the deduplicated parent local keys; the single-row
case adds a pivot `where` on the parent's local key.  In both cases the
source calls `wherePivot`/`whereInPivot` in the two-argument shape (the
value is passed in the `operator` slot). -/
def MMState.addWhereConstraints (s : MMState) : MMState :=
  match s.parent with
  | .many rows =>
    (s.wrapExisting).whereInPivot s.relation.pivotForeignKey (uniqueList rows)
  | .one row =>
    (s.wrapExisting).wherePivot s.relation.pivotForeignKey (some row) none

/-- Embeds `applyConstraints`, idempotently guarded by the one-shot
`appliedConstraints` flag: pivot-only or update/delete queries are scoped
to the pivot table with the pivot predicate; otherwise (unless the query
aggregates) the default `select *` (unless cherry-picking) and the aliased
pivot-column selects are added, followed by the inner join and the pivot
predicate. -/
def MMState.applyConstraints (s : MMState) : MMState :=
  if s.appliedConstraints then s
  else
    let s1 := { s with appliedConstraints := true }
    if s1.isPivotOnlyQuery || (s1.queryAction = "delete" || s1.queryAction = "update") then
      (s1.fromTable s1.relation.pivotTable).addWhereConstraints
    else
      let s2 :=
        if !s1.hasAggregates then
          let s3 := if !s1.cherryPickingKeys then s1.select ["*"] else s1
          s3.pivotColumns ([s3.relation.pivotForeignKey, s3.relation.pivotRelatedForeignKey]
            ++ s3.relation.pivotColumns ++ s3.relation.pivotTimestamps)
        else s1
      let s4 := s2.innerJoin s2.relation.pivotTable
        (s2.relation.relatedTableName ++ "." ++ s2.relation.relatedKeyColumnName)
        (s2.relation.pivotTable ++ "." ++ s2.relation.pivotRelatedForeignKey)
      s4.addWhereConstraints

/-- Embeds `clone`: applies constraints to the original, builds a fresh
builder over the cloned low-level query (constructor defaults for every
flag), then copies each flag from the original; the debug and reporter
passthroughs touch only external state and are elided.  Returns the
original (as mutated) together with the clone. -/
def MMState.clone (s : MMState) : MMState × MMState :=
  let s' := s.applyConstraints
  let c0 : MMState :=
    { relation := s'.relation, parent := s'.parent,
      queryAction := s'.queryAction, hasAggregates := s'.hasAggregates,
      ops := s'.ops }
  let c1 := c0.setIsPivotOnlyQuery s'.isPivotOnlyQuery
  let c2 := { c1 with cherryPickingKeys := s'.cherryPickingKeys }
  let c3 := { c2 with appliedConstraints := s'.appliedConstraints }
  let c4 := { c3 with isRelatedPreloadQuery := s'.isRelatedPreloadQuery }
  (s', c4)

/-- Embeds `paginate(page, perPage = 20)`: fails fast on a related-preload
builder, otherwise applies constraints and delegates to the generic
paginate (represented by returning the constrained state together with the
forwarded arguments). -/
def MMState.paginate (s : MMState) (page : Nat) (perPage : Nat := 20) :
    Except String (MMState × Nat × Nat) :=
  if s.isRelatedPreloadQuery then
    Except.error ("Cannot paginate relationship \"" ++ s.relation.relationName
      ++ "\" during preload")
  else
    Except.ok (s.applyConstraints, (page, perPage))

/-! ## Row post-processing in exec (pivot timestamp normalization) -/

/-- Provenance-tagged luxon `DateTime` value (the canonical datetime
representation produced by the normalization). -/
inductive DTSource where
  | fromSQL (s : String)
  | fromJSDate (epochMs : Int)
deriving DecidableEq

/-- JavaScript value held in a result row's `$extras` side-map. -/
inductive JsVal where
  | vstr (s : String)
  | vdate (epochMs : Int)
  | vdatetime (source : DTSource)
  | vnum (n : Int)
  | vbool (b : Bool)
  | vnull
  | vundef
deriving DecidableEq

/-- JavaScript falsiness of an extras value, the `!timestampValue` test. -/
def JsVal.falsy : JsVal → Bool
  | .vstr s => s == ""
  | .vnum n => n == 0
  | .vbool b => !b
  | .vnull => true
  | .vundef => true
  | _ => false

/-- Specification of one normalization step, as the claim states it: a
(truthy) string becomes `DateTime.fromSQL` of itself, a native date
becomes `DateTime.fromJSDate` of itself, and every falsy or
other-shaped value is left unmodified. -/
def transformTimestampValue (v : JsVal) : JsVal :=
  if v.falsy then v
  else
    match v with
    | .vstr s => .vdatetime (.fromSQL s)
    | .vdate ms => .vdatetime (.fromJSDate ms)
    | other => other

/-- Reads `row.$extras[key]` (`none` plays `undefined`): the value of the
first entry carrying the key. -/
def lookupExtra : List (String × JsVal) → String → Option JsVal
  | [], _ => none
  | kv :: rest, key => if kv.1 == key then some kv.2 else lookupExtra rest key

/-- Writes `row.$extras[key] = v` for a key already present (the source
only assigns after reading a truthy value, so the key exists). -/
def setExtra (extras : List (String × JsVal)) (key : String) (v : JsVal) :
    List (String × JsVal) :=
  extras.map fun kv => if kv.1 == key then (kv.1, v) else kv

/-- Embeds the row transformer `exec` registers: for each aliased pivot
timestamp column in turn, the extras value is read; falsy (or absent)
values are skipped; a string is replaced by `DateTime.fromSQL` of it and a
native date by `DateTime.fromJSDate` of it (the `instanceof Date` test
inspects the original value, so the two branches never chain); any other
value triggers no assignment at all. -/
def execStep (ex : List (String × JsVal)) (timestamp : String) :
    List (String × JsVal) :=
  match lookupExtra ex timestamp with
  | none => ex
  | some v =>
    if v.falsy then ex
    else
      match v with
      | .vstr str => setExtra ex timestamp (.vdatetime (.fromSQL str))
      | .vdate ms => setExtra ex timestamp (.vdatetime (.fromJSDate ms))
      | _ => ex

/-- Folds the per-column step over every aliased pivot timestamp column. -/
def execTransformRow (aliases : List String) (extras : List (String × JsVal)) :
    List (String × JsVal) :=
  aliases.foldl execStep extras

/-- Embeds `exec`'s row post-processing: the declared pivot timestamps are
aliased through `relation.pivotAlias` and each returned row's extras map is
normalized.  (When there are no pivot timestamps the source registers no
transformer; the fold over the empty alias list reproduces that no-op.) -/
def MMState.execRow (s : MMState) (extras : List (String × JsVal)) :
    List (String × JsVal) :=
  execTransformRow (s.relation.pivotTimestamps.map s.relation.pivotAlias) extras

/-! ## BelongsToQueryClient.associate / dissociate
(src/unnamed/part_001, first file) -/

/-- Modelled from the spec: a record participating in `associate` /
`dissociate`.  Only the fields those operations read are kept: the primary
key, the foreign-key field on the parent side, the attached transaction
handle, and whether the record has been persisted. -/
structure ARow where
  primaryKey : Option String
  foreignKey : Option String
  trx : Option Nat
  persisted : Bool
deriving DecidableEq

/-- Modelled from the spec: `record.save()` (model persistence capability,
outside src/) — persists the record, assigning a fresh primary-key value
when none exists; the injected `fail` flag simulates a persist failure,
which surfaces as the underlying error. -/
def saveRow (fail : Bool) (newKey : String) (r : ARow) : Except String ARow :=
  if fail then Except.error "persist failed"
  else Except.ok { r with primaryKey := some (r.primaryKey.getD newKey), persisted := true }

/-- Modelled from the spec: `relation.hydrateForPersistence(parent,
related)` for a belongs-to relation (outside src/) — copies the related
record's key value onto the parent's foreign-key field. -/
def hydrateForPersistence (parent related : ARow) : ARow :=
  { parent with foreignKey := related.primaryKey }

/-- Modelled from the spec: `managedTransaction` (outside src/) — runs the
body against the current observable state inside one transaction; on
success the new state is committed, on any failure both writes are rolled
back so the original state stays observable, and the underlying error is
propagated to the caller. -/
def managedTransaction (state : ARow × ARow) (trx : Nat)
    (body : Nat → ARow × ARow → Except String (ARow × ARow)) :
    (ARow × ARow) × Option String :=
  match body trx state with
  | Except.ok state' => (state', none)
  | Except.error e => (state, some e)

/-- Embeds `BelongsToQueryClient.associate`: inside one managed
transaction, adopt the transaction on the related record and save it,
hydrate the parent's foreign key from the related record, adopt the
transaction on the parent and save it.  `failRelated` / `failParent`
inject a failure into the respective save; `newKey` is the primary key the
related record's insert would generate.  Returns the observable (parent,
related) state after commit or rollback, plus the propagated error. -/
def associate (parent related : ARow) (trx : Nat) (newKey : String)
    (failRelated failParent : Bool) : (ARow × ARow) × Option String :=
  managedTransaction (parent, related) trx fun t st =>
    let related1 := { st.2 with trx := some t }
    match saveRow failRelated newKey related1 with
    | Except.error e => Except.error e
    | Except.ok related2 =>
      let parent1 := hydrateForPersistence st.1 related2
      let parent2 := { parent1 with trx := some t }
      match saveRow failParent newKey parent2 with
      | Except.error e => Except.error e
      | Except.ok parent3 => Except.ok (parent3, related2)

/-- Embeds `dissociate`: sets the parent's foreign key to null and saves
the parent (single statement, no transaction). -/
def dissociate (parent : ARow) (failSave : Bool) (newKey : String) :
    Except String ARow :=
  saveRow failSave newKey { parent with foreignKey := none }

/-! ## Concrete instances used by counterexamples and witnesses -/

/-- A concrete many-to-many relation (users to skills through
`skill_user`). -/
def skillRel : ManyToMany :=
  { pivotTable := "skill_user", pivotForeignKey := "user_id",
    pivotRelatedForeignKey := "skill_id", localKey := "id",
    relatedKeyColumnName := "id", relatedTableName := "skills",
    relatedPrimaryKey := "id", pivotColumns := ["proficiency"],
    pivotTimestamps := ["created_at"], pivotColumnsAlias := "pivot_",
    relationName := "skills" }

/-- A builder over `skillRel` switched to pivot-only mode through the
`isPivotOnlyQuery` setter. -/
def pivotOnlyBuilder : MMState :=
  MMState.setIsPivotOnlyQuery { relation := skillRel, parent := ParentRef.one "1" } true

/-- A plain (non-pivot-only, non-preload) builder over `skillRel`. -/
def plainBuilder : MMState :=
  { relation := skillRel, parent := ParentRef.one "1" }

/-! ## Theorems about SimplePaginator -/

/-! ### Arithmetic helper for C5 -/

/-- Ceiling of an exact natural division agrees with the rounded-up integer
division `(a + b - 1) / b`. -/
theorem ceil_nat_div_eq (a b : Nat) (hb : 1 ≤ b) :
    ⌈(a : ℚ) / (b : ℚ)⌉₊ = (a + b - 1) / b := by
  have hb0 : (0 : ℚ) < (b : ℚ) := by exact_mod_cast hb
  have hdm := Nat.div_add_mod (a + b - 1) b
  have hmlt : (a + b - 1) % b < b := Nat.mod_lt _ hb
  apply le_antisymm
  · rw [Nat.ceil_le, div_le_iff₀ hb0]
    have h1 : a ≤ (a + b - 1) / b * b := by
      rw [mul_comm]
      omega
    exact_mod_cast h1
  · rcases Nat.eq_zero_or_pos a with ha | ha
    · subst ha
      simp only [Nat.zero_add]
      rw [Nat.div_eq_of_lt (by omega)]
      exact Nat.zero_le _
    · have hd1 : 1 ≤ (a + b - 1) / b := by
        rw [Nat.one_le_div_iff (by omega)]
        omega
      have h2 : (a + b - 1) / b - 1 < ⌈(a : ℚ) / (b : ℚ)⌉₊ := by
        rw [Nat.lt_ceil, lt_div_iff₀ hb0]
        have h3 : ((a + b - 1) / b - 1) * b < a := by
          rw [Nat.sub_mul, one_mul, mul_comm]
          omega
        exact_mod_cast h3
      omega

/-- C5: for every `SimplePaginator` constructed with `total ≥ 0` and
`perPage ≥ 1`, the derived field `lastPage` equals
`max (ceil (total / perPage)) 1` — expressed over naturals as
`max ((total + perPage - 1) / perPage) 1` — and `hasTotal` equals
`total > 0`. -/
theorem simplePaginator_lastPage_hasTotal
    (total perPage currentPage : Nat) (rows : List String)
    (hpp : 1 ≤ perPage) :
    (SimplePaginator.make total perPage currentPage rows).lastPage
        = max ((total + perPage - 1) / perPage) 1 ∧
    (SimplePaginator.make total perPage currentPage rows).hasTotal
        = decide (0 < total) := by
  constructor
  · simp only [SimplePaginator.lastPage, SimplePaginator.make,
      ceil_nat_div_eq total perPage hpp]
  · rfl

/-- Witness for C5 at the spec's own scenario: total 95, perPage 20 gives
lastPage 5 and hasTotal true. -/
theorem simplePaginator_lastPage_hasTotal_witness :
    (SimplePaginator.make 95 20 1 (List.replicate 20 "row")).lastPage
        = max ((95 + 20 - 1) / 20) 1 ∧
    (SimplePaginator.make 95 20 1 (List.replicate 20 "row")).hasTotal
        = decide (0 < 95) :=
  simplePaginator_lastPage_hasTotal 95 20 1 (List.replicate 20 "row") (by decide)

/-- C6: `getPreviousPageUrl` is `none` exactly when `currentPage ≤ 1` and
otherwise returns `getUrl (currentPage - 1)`; `getNextPageUrl` is `none`
exactly when `hasMorePages` is false and otherwise returns
`getUrl (currentPage + 1)`.  Both embeddings are total Lean functions, so
neither can throw. -/
theorem simplePaginator_next_prev_urls (p : SimplePaginator) :
    (p.getPreviousPageUrl = none ↔ p.currentPage ≤ 1) ∧
    (1 < p.currentPage →
      p.getPreviousPageUrl = some (p.getUrl ((p.currentPage : Int) - 1))) ∧
    (p.getNextPageUrl = none ↔ p.hasMorePages = false) ∧
    (p.hasMorePages = true →
      p.getNextPageUrl = some (p.getUrl ((p.currentPage : Int) + 1))) := by
  refine ⟨?_, ?_, ?_, ?_⟩
  · simp only [SimplePaginator.getPreviousPageUrl]
    split <;> simp <;> omega
  · intro h
    simp only [SimplePaginator.getPreviousPageUrl, if_pos h]
  · simp only [SimplePaginator.getNextPageUrl]
    split <;> simp_all
  · intro h
    simp [SimplePaginator.getNextPageUrl, h]

/-- Witness for C6 at currentPage 3: the previous-page URL is the URL of
page 2. -/
theorem simplePaginator_next_prev_urls_witness :
    (SimplePaginator.make 95 20 3 []).getPreviousPageUrl
      = some ((SimplePaginator.make 95 20 3 []).getUrl (((3 : Nat) : Int) - 1)) :=
  (simplePaginator_next_prev_urls (SimplePaginator.make 95 20 3 [])).2.1 (by decide)

/-! ### Helper lemmas for the C7 round-trip -/

/-- Codepoint of a decimal digit character. -/
theorem digitChar_toNat (d : Nat) (hd : d < 10) :
    (Char.ofNat (48 + d)).toNat = 48 + d := by
  interval_cases d <;> decide

/-- Decimal digit characters are not the pair separator. -/
theorem digitChar_ne_amp (d : Nat) (hd : d < 10) :
    Char.ofNat (48 + d) ≠ '&' := by
  interval_cases d <;> decide

/-- Rendered page numbers contain no `&`. -/
theorem natRender_no_amp (n : Nat) : '&' ∉ natRender n := by
  intro hmem
  simp only [natRender, List.mem_map, List.mem_reverse] at hmem
  obtain ⟨d, hd, hc⟩ := hmem
  exact digitChar_ne_amp d (Nat.digits_lt_base (by norm_num) hd) hc

/-- Reading back a digit list rendered most-significant-first recovers the
base-10 value of the digits. -/
theorem parseNatChars_digits (ds : List Nat) (h : ∀ d ∈ ds, d < 10) :
    parseNatChars (ds.reverse.map (fun d => Char.ofNat (48 + d)))
      = Nat.ofDigits 10 ds := by
  induction ds with
  | nil => rfl
  | cons d tl ih =>
    have hd : d < 10 := h d (List.mem_cons_self d tl)
    have htl : ∀ x ∈ tl, x < 10 := fun x hx => h x (List.mem_cons_of_mem d hx)
    simp only [List.reverse_cons, List.map_append, List.map_cons, List.map_nil]
    simp only [parseNatChars, List.foldl_append, List.foldl_cons, List.foldl_nil]
    rw [Nat.ofDigits_cons]
    have := ih htl
    simp only [parseNatChars] at this
    rw [this, digitChar_toNat d hd]
    omega

/-- Rendering then reading a natural number is the identity. -/
theorem parseNatChars_natRender (n : Nat) : parseNatChars (natRender n) = n := by
  rw [natRender,
    parseNatChars_digits _ (fun d hd => Nat.digits_lt_base (by norm_num) hd),
    Nat.ofDigits_digits]

/-- Splitting a piece without `&` yields a single piece. -/
theorem splitAmpAux_no_amp (p : List Char) (acc : List Char) (hp : '&' ∉ p) :
    splitAmpAux p acc = [acc.reverse ++ p] := by
  induction p generalizing acc with
  | nil => simp [splitAmpAux]
  | cons c rest ih =>
    have hc : c ≠ '&' := fun h => hp (h ▸ List.mem_cons_self c rest)
    have hr : '&' ∉ rest := fun h => hp (List.mem_cons_of_mem c h)
    simp [splitAmpAux, hc, ih (c :: acc) hr]

/-- Splitting consumes a leading `&`-free piece up to the next `&`. -/
theorem splitAmpAux_amp (p rest acc : List Char) (hp : '&' ∉ p) :
    splitAmpAux (p ++ '&' :: rest) acc
      = (acc.reverse ++ p) :: splitAmpAux rest [] := by
  induction p generalizing acc with
  | nil => simp [splitAmpAux]
  | cons c tl ih =>
    have hc : c ≠ '&' := fun h => hp (h ▸ List.mem_cons_self c tl)
    have ht : '&' ∉ tl := fun h => hp (List.mem_cons_of_mem c h)
    simp [splitAmpAux, hc, ih (c :: acc) ht]

/-- Splitting on `&` undoes joining with `&` for nonempty piece lists whose
pieces contain no `&`. -/
theorem splitAmp_joinAmp (pieces : List (List Char)) (hne : pieces ≠ [])
    (h : ∀ p ∈ pieces, '&' ∉ p) :
    splitAmp (joinAmp pieces) = pieces := by
  induction pieces with
  | nil => exact absurd rfl hne
  | cons x xs ih =>
    cases xs with
    | nil =>
      rw [joinAmp, splitAmp, splitAmpAux_no_amp x [] (h x (List.mem_cons_self x []))]
      rfl
    | cons y ys =>
      have hx : '&' ∉ x := h x (List.mem_cons_self x (y :: ys))
      have hrest : ∀ p ∈ y :: ys, '&' ∉ p :=
        fun p hp => h p (List.mem_cons_of_mem x hp)
      have hj : joinAmp (x :: y :: ys) = x ++ '&' :: joinAmp (y :: ys) := rfl
      rw [hj, splitAmp, splitAmpAux_amp x (joinAmp (y :: ys)) [] hx]
      have := ih (by simp) hrest
      rw [splitAmp] at this
      rw [this]
      rfl

/-- Splitting `key ++ '=' :: value` at the first `=` recovers key and value
when the key contains no `=`. -/
theorem splitEqAux_key (k v acc : List Char) (hk : '=' ∉ k) :
    splitEqAux (k ++ '=' :: v) acc = (acc.reverse ++ k, v) := by
  induction k generalizing acc with
  | nil => simp [splitEqAux]
  | cons c tl ih =>
    have hc : c ≠ '=' := fun h => hk (h ▸ List.mem_cons_self c tl)
    have ht : '=' ∉ tl := fun h => hk (List.mem_cons_of_mem c h)
    simp [splitEqAux, hc, ih (c :: acc) ht]

/-- Specialization of `splitEqAux_key` to the empty accumulator. -/
theorem splitEq1_key (k v : List Char) (hk : '=' ∉ k) :
    splitEq1 (k ++ '=' :: v) = (k, v) := by
  rw [splitEq1, splitEqAux_key k v [] hk]
  rfl

/-- Merging the page parameter never produces an empty map. -/
theorem assignPage_ne_nil (qs : List (List Char × List Char)) (pv : List Char) :
    assignPage qs pv ≠ [] := by
  unfold assignPage
  split
  · cases qs with
    | nil => simp_all
    | cons kv rest => simp
  · simp

/-- Every entry of the merged map is benign when the stored entries are and
the page value contains no `&`. -/
theorem assignPage_benign (qs : List (List Char × List Char)) (pv : List Char)
    (hqs : ∀ kv ∈ qs, benignEntry kv) (hpv : '&' ∉ pv) :
    ∀ kv ∈ assignPage qs pv, benignEntry kv := by
  have hpage : ('&' ∉ pageKeyChars) ∧ ('=' ∉ pageKeyChars) := by decide
  intro kv hkv
  unfold assignPage at hkv
  split at hkv
  · rw [List.mem_map] at hkv
    obtain ⟨kv0, hkv0, heq⟩ := hkv
    by_cases hk : kv0.1 = pageKeyChars
    · rw [if_pos hk] at heq
      rw [← heq]
      exact ⟨(hqs kv0 hkv0).1, (hqs kv0 hkv0).2.1, hpv⟩
    · rw [if_neg hk] at heq
      rw [← heq]
      exact hqs kv0 hkv0
  · rw [List.mem_append] at hkv
    rcases hkv with h | h
    · exact hqs kv h
    · rw [List.mem_singleton] at h
      rw [h]
      exact ⟨hpage.1, hpage.2, hpv⟩

/-- Every page-keyed entry of the merged map carries the new page value. -/
theorem assignPage_page_val (qs : List (List Char × List Char)) (pv : List Char) :
    ∀ kv ∈ assignPage qs pv, kv.1 = pageKeyChars → kv.2 = pv := by
  intro kv hkv hk
  unfold assignPage at hkv
  split at hkv
  case isTrue h =>
    rw [List.mem_map] at hkv
    obtain ⟨kv0, hkv0, heq⟩ := hkv
    by_cases hk0 : kv0.1 = pageKeyChars
    · rw [if_pos hk0] at heq
      rw [← heq]
    · rw [if_neg hk0] at heq
      rw [← heq] at hk
      exact absurd hk hk0
  case isFalse h =>
    rw [List.mem_append] at hkv
    rcases hkv with hmem | hmem
    · exact absurd (List.any_eq_true.mpr ⟨kv, hmem, decide_eq_true hk⟩) h
    · rw [List.mem_singleton] at hmem
      rw [hmem]

/-- The merged map always contains a page-keyed entry. -/
theorem assignPage_exists_page (qs : List (List Char × List Char)) (pv : List Char) :
    ∃ kv ∈ assignPage qs pv, kv.1 = pageKeyChars := by
  unfold assignPage
  split
  case isTrue h =>
    rw [List.any_eq_true] at h
    obtain ⟨kv0, hkv0, hk⟩ := h
    have hk' : kv0.1 = pageKeyChars := of_decide_eq_true hk
    refine ⟨(kv0.1, pv), ?_, hk'⟩
    rw [List.mem_map]
    exact ⟨kv0, hkv0, by rw [if_pos hk']⟩
  case isFalse h =>
    exact ⟨(pageKeyChars, pv), by simp, rfl⟩

/-- Serialized benign entries contain no `&`. -/
theorem piece_no_amp (kv : List Char × List Char) (h : benignEntry kv) :
    '&' ∉ kv.1 ++ '=' :: kv.2 := by
  intro hmem
  rw [List.mem_append] at hmem
  rcases hmem with h1 | h1
  · exact h.1 h1
  · rcases List.mem_cons.mp h1 with h2 | h2
    · exact absurd h2 (by decide)
    · exact h.2.2 h2

/-- Scanning the serialized pieces finds the page parameter and reads the
page value, provided every page-keyed entry carries that value. -/
theorem findSome_page_pieces (m : List (List Char × List Char)) (pv : List Char)
    (hb : ∀ kv ∈ m, '=' ∉ kv.1)
    (hval : ∀ kv ∈ m, kv.1 = pageKeyChars → kv.2 = pv)
    (hex : ∃ kv ∈ m, kv.1 = pageKeyChars) :
    ((m.map fun kv => kv.1 ++ '=' :: kv.2).findSome? fun piece =>
      let kv := splitEq1 piece
      if kv.1 = pageKeyChars then some (parseNatChars kv.2) else none)
      = some (parseNatChars pv) := by
  induction m with
  | nil =>
    obtain ⟨kv, h, _⟩ := hex
    exact absurd h (List.not_mem_nil kv)
  | cons kv rest ih =>
    rw [List.map_cons, List.findSome?_cons]
    have hkey : '=' ∉ kv.1 := hb kv (List.mem_cons_self kv rest)
    simp only [splitEq1_key kv.1 kv.2 hkey]
    by_cases hk : kv.1 = pageKeyChars
    · simp only [if_pos hk, hval kv (List.mem_cons_self kv rest) hk]
    · simp only [if_neg hk]
      apply ih
      · exact fun x hx => hb x (List.mem_cons_of_mem kv hx)
      · exact fun x hx h => hval x (List.mem_cons_of_mem kv hx) h
      · obtain ⟨x, hx, hxk⟩ := hex
        rcases List.mem_cons.mp hx with rfl | hx'
        · exact absurd hxk hk
        · exact ⟨x, hx', hxk⟩

/-- C7: `getUrl page` appends the serialized query string to the stored
base URL; the serialized page number is the requested page clamped to at
least 1 (so pages below 1 emit page 1), and reading the `page` parameter
back out of the produced query string recovers exactly the post-clamp
page. -/
theorem getUrl_page_roundtrip (p : SimplePaginator) (page : Int)
    (hqs : ∀ kv ∈ p.qs, benignEntry kv) :
    p.getUrl page = p.url ++ "?" ++ String.mk (p.getUrlQs page) ∧
    1 ≤ clampPage page ∧
    parsePageQs (p.getUrlQs page) = some (clampPage page).toNat ∧
    (page < 1 → parsePageQs (p.getUrlQs page) = some 1) := by
  have hclamp : 1 ≤ clampPage page := by
    unfold clampPage
    split <;> omega
  have hpv : '&' ∉ natRender (clampPage page).toNat :=
    natRender_no_amp (clampPage page).toNat
  have hmain : parsePageQs (p.getUrlQs page) = some (clampPage page).toNat := by
    unfold SimplePaginator.getUrlQs
    set pv := natRender (clampPage page).toNat with hpvdef
    set m := assignPage p.qs pv with hmdef
    have hbenign : ∀ kv ∈ m, benignEntry kv := assignPage_benign p.qs pv hqs hpv
    have hsplit : splitAmp (joinAmp (m.map fun kv => kv.1 ++ '=' :: kv.2))
        = m.map fun kv => kv.1 ++ '=' :: kv.2 := by
      apply splitAmp_joinAmp
      · simp [assignPage_ne_nil p.qs pv, hmdef]
      · intro piece hp
        rw [List.mem_map] at hp
        obtain ⟨kv, hkv, rfl⟩ := hp
        exact piece_no_amp kv (hbenign kv hkv)
    unfold parsePageQs stringifyPairs
    rw [hsplit, findSome_page_pieces m pv
      (fun kv hkv => (hbenign kv hkv).2.1)
      (assignPage_page_val p.qs pv)
      (assignPage_exists_page p.qs pv)]
    rw [hpvdef, parseNatChars_natRender]
  refine ⟨rfl, hclamp, hmain, ?_⟩
  intro hlt
  rw [hmain]
  unfold clampPage
  rw [if_pos hlt]
  rfl

/-- Witness for C7: a paginator with one stored query-string entry and the
out-of-range page number -3 emits page 1 and round-trips it. -/
theorem getUrl_page_roundtrip_witness :
    (let p : SimplePaginator :=
      { total := 95, perPage := 20, currentPage := 1, rows := [],
        qs := [(['f', 'o', 'o'], ['b', 'a', 'r'])] }
     p.getUrl (-3) = p.url ++ "?" ++ String.mk (p.getUrlQs (-3)) ∧
     1 ≤ clampPage (-3) ∧
     parsePageQs (p.getUrlQs (-3)) = some (clampPage (-3)).toNat ∧
     ((-3 : Int) < 1 → parsePageQs (p.getUrlQs (-3)) = some 1)) :=
  getUrl_page_roundtrip
    { total := 95, perPage := 20, currentPage := 1, rows := [],
      qs := [(['f', 'o', 'o'], ['b', 'a', 'r'])] }
    (-3) (by decide)

/-! ## Theorems about the ManyToMany query builder -/

/-- The where-family dispatch only appends operations; every builder flag,
in particular `appliedConstraints`, is untouched. -/
theorem dispatchWhere_appliedConstraints (s : MMState) (method key : String)
    (operator value : Option String) :
    (s.dispatchWhere method key operator value).appliedConstraints
      = s.appliedConstraints := by
  unfold MMState.dispatchWhere
  split
  · rfl
  · split
    · rfl
    · split <;> rfl

/-- The whereIn-family dispatch preserves `appliedConstraints`. -/
theorem dispatchWhereIn_appliedConstraints (s : MMState) (method key : String)
    (values : List String) :
    (s.dispatchWhereIn method key values).appliedConstraints
      = s.appliedConstraints := by
  unfold MMState.dispatchWhereIn
  split
  · rfl
  · split
    · rfl
    · split <;> rfl

/-- `PivotHelpers.wherePivot` preserves `appliedConstraints`. -/
theorem helpersWherePivot_appliedConstraints (s : MMState)
    (variation : PivotVariation) (key : String) (operator value : Option String) :
    (PivotHelpers.wherePivot s variation key operator value).appliedConstraints
      = s.appliedConstraints := by
  simp only [PivotHelpers.wherePivot]
  split
  · exact dispatchWhere_appliedConstraints ..
  · split
    · exact dispatchWhere_appliedConstraints ..
    · exact dispatchWhere_appliedConstraints ..

/-- `PivotHelpers.whereInPivot` preserves `appliedConstraints`. -/
theorem helpersWhereInPivot_appliedConstraints (s : MMState)
    (variation : PivotVariation) (key : String) (values : List String) :
    (PivotHelpers.whereInPivot s variation key values).appliedConstraints
      = s.appliedConstraints := by
  simp only [PivotHelpers.whereInPivot]
  exact dispatchWhereIn_appliedConstraints ..

/-- `addWhereConstraints` preserves `appliedConstraints`. -/
theorem addWhereConstraints_appliedConstraints (s : MMState) :
    (s.addWhereConstraints).appliedConstraints = s.appliedConstraints := by
  unfold MMState.addWhereConstraints
  split
  · exact helpersWhereInPivot_appliedConstraints ..
  · exact helpersWherePivot_appliedConstraints ..

/-- Record-update helpers preserve `appliedConstraints`. -/
theorem fromTable_appliedConstraints (s : MMState) (t : String) :
    (s.fromTable t).appliedConstraints = s.appliedConstraints := rfl

/-- `innerJoin` preserves `appliedConstraints`. -/
theorem innerJoin_appliedConstraints (s : MMState) (t c1 c2 : String) :
    (s.innerJoin t c1 c2).appliedConstraints = s.appliedConstraints := rfl

/-- `pivotColumns` preserves `appliedConstraints`. -/
theorem pivotColumns_appliedConstraints (s : MMState) (cols : List String) :
    (s.pivotColumns cols).appliedConstraints = s.appliedConstraints := rfl

/-- `select` preserves `appliedConstraints`. -/
theorem select_appliedConstraints (s : MMState) (cols : List String) :
    (s.select cols).appliedConstraints = s.appliedConstraints := rfl

/-- After `applyConstraints`, the one-shot guard is always set. -/
theorem applyConstraints_flag (s : MMState) :
    (s.applyConstraints).appliedConstraints = true := by
  simp only [MMState.applyConstraints]
  split
  case isTrue h => exact h
  case isFalse h =>
    split
    · rw [addWhereConstraints_appliedConstraints, fromTable_appliedConstraints]
    · rw [addWhereConstraints_appliedConstraints, innerJoin_appliedConstraints]
      split
      · rw [pivotColumns_appliedConstraints]
        split
        · rw [select_appliedConstraints]
        · rfl
      · rfl

/-- A builder whose guard is set is a fixed point of `applyConstraints`. -/
theorem applyConstraints_of_flag (s : MMState) (h : s.appliedConstraints = true) :
    s.applyConstraints = s := by
  simp only [MMState.applyConstraints]
  rw [if_pos h]

/-- C2: `applyConstraints` is idempotent — a second call returns the state
of the first unchanged, adding no join, select, or pivot predicate, because
the one-shot `appliedConstraints` flag short-circuits it. -/
theorem manyToMany_applyConstraints_idempotent (s : MMState) :
    (s.applyConstraints).applyConstraints = s.applyConstraints :=
  applyConstraints_of_flag _ (applyConstraints_flag s)

/-- C1 (failing-input evaluation): on a pivot-only builder, the
three-argument `wherePivot('proficiency', '=', 'expert')` does NOT leave
the bare column bare — `prefixPivotTable` does, but the dynamic dispatch
`this.query[method]` lands on the overridden `where`, whose
`prefixRelatedTable` re-qualifies the key with the RELATED table, emitting
`skills.proficiency` instead of `proficiency`. -/
theorem wherePivot_pivotOnly_emits_related_prefix :
    (pivotOnlyBuilder.wherePivot "proficiency" (some "=") (some "expert")).ops
      = [QueryOp.pojoOp,
         QueryOp.whereOp "where" "skills.proficiency" (some "=") (some "expert")]
    ∧ ("skills.proficiency" : String) ≠ "proficiency" := by
  constructor
  · decide
  · decide

/-- C4: `paginate(page, perPage)` fails if and only if the builder is a
related-preload query (with the fail-fast message); otherwise it applies
constraints and delegates to the generic paginate with the forwarded
arguments. -/
theorem manyToMany_paginate_guard (s : MMState) (page perPage : Nat) :
    ((s.paginate page perPage).isOk = !s.isRelatedPreloadQuery) ∧
    (s.isRelatedPreloadQuery = true →
      s.paginate page perPage = Except.error ("Cannot paginate relationship \""
        ++ s.relation.relationName ++ "\" during preload")) ∧
    (s.isRelatedPreloadQuery = false →
      s.paginate page perPage = Except.ok (s.applyConstraints, (page, perPage))) := by
  unfold MMState.paginate
  rcases h : s.isRelatedPreloadQuery <;> simp [h, Except.isOk, Except.toBool]

/-- Witness for C4: a plain builder paginates by delegation. -/
theorem manyToMany_paginate_guard_witness :
    plainBuilder.paginate 2 10
      = Except.ok (plainBuilder.applyConstraints, (2, 10)) :=
  (manyToMany_paginate_guard plainBuilder 2 10).2.2 rfl

/-- C9: `clone` first applies constraints to the original builder, so
afterwards both the original and the returned clone carry
`appliedConstraints = true` and are fixed points of `applyConstraints` —
even when the original had not applied constraints before. -/
theorem manyToMany_clone_constraints (s : MMState) :
    (s.clone).1 = s.applyConstraints ∧
    (s.clone).1.appliedConstraints = true ∧
    (s.clone).2.appliedConstraints = true ∧
    (s.clone).1.applyConstraints = (s.clone).1 ∧
    (s.clone).2.applyConstraints = (s.clone).2 := by
  have h1 : (s.clone).1.appliedConstraints = true := applyConstraints_flag s
  have h2 : (s.clone).2.appliedConstraints = true := applyConstraints_flag s
  exact ⟨rfl, h1, h2, applyConstraints_of_flag _ h1, applyConstraints_of_flag _ h2⟩

/-- C10: in `PivotHelpers.wherePivot` the pivot-table prefix is applied to
the key only in the three-argument and two-argument call shapes; in the
one-argument shape the key reaches the dispatched underlying method
unprefixed. -/
theorem pivotHelpers_wherePivot_shapes (s : MMState) (variation : PivotVariation)
    (key op val : String) (hkey : hasDot key = false)
    (hpo : s.isPivotOnlyQuery = false) :
    PivotHelpers.wherePivot s variation key (some op) (some val)
      = s.dispatchWhere (pivotWhereMethod variation)
          (s.relation.pivotTable ++ "." ++ key) (some op) (some val) ∧
    PivotHelpers.wherePivot s variation key (some op) none
      = s.dispatchWhere (pivotWhereMethod variation)
          (s.relation.pivotTable ++ "." ++ key) (some op) none ∧
    PivotHelpers.wherePivot s variation key none none
      = s.dispatchWhere (pivotWhereMethod variation) key none none := by
  have hp : s.prefixPivotTable key = s.relation.pivotTable ++ "." ++ key := by
    unfold MMState.prefixPivotTable
    rw [if_neg (by simp [hkey]), if_neg (by simp [hpo])]
  refine ⟨?_, ?_, ?_⟩ <;> simp [PivotHelpers.wherePivot, hp]

/-- Witness for C10 on a plain builder and the bare column `status`. -/
theorem pivotHelpers_wherePivot_shapes_witness :
    PivotHelpers.wherePivot plainBuilder PivotVariation.and "status" none none
      = plainBuilder.dispatchWhere (pivotWhereMethod PivotVariation.and)
          "status" none none :=
  (pivotHelpers_wherePivot_shapes plainBuilder PivotVariation.and
    "status" "=" "active" (by decide) rfl).2.2

/-! ## Theorems about exec row post-processing (C8) -/

/-- Writing a present key and reading it back yields the written value;
reading an absent key still yields nothing. -/
theorem lookupExtra_setExtra_same (ex : List (String × JsVal)) (key : String)
    (v : JsVal) :
    lookupExtra (setExtra ex key v) key
      = (lookupExtra ex key).map (fun _ => v) := by
  induction ex with
  | nil => rfl
  | cons kv t ih =>
    simp only [setExtra, List.map_cons, beq_iff_eq] at ih ⊢
    by_cases h : kv.1 = key
    · simp [lookupExtra, h]
    · simp [lookupExtra, h, ih]

/-- Writing one key leaves every other key's value unchanged. -/
theorem lookupExtra_setExtra_ne (ex : List (String × JsVal)) (key key' : String)
    (v : JsVal) (h : key' ≠ key) :
    lookupExtra (setExtra ex key v) key' = lookupExtra ex key' := by
  induction ex with
  | nil => rfl
  | cons kv t ih =>
    simp only [setExtra, List.map_cons, beq_iff_eq] at ih ⊢
    have hkey : key ≠ key' := fun hh => h hh.symm
    by_cases hk : kv.1 = key
    · simp [lookupExtra, hk, hkey, ih]
    · by_cases hk2 : kv.1 = key'
      · simp [lookupExtra, hk, hk2, hkey, h, ih]
      · simp [lookupExtra, hk, hk2, hkey, h, ih]

/-- One normalization step is idempotent on values. -/
theorem transformTimestampValue_idem (v : JsVal) :
    transformTimestampValue (transformTimestampValue v)
      = transformTimestampValue v := by
  cases v with
  | vstr s =>
    by_cases hs : s = "" <;> simp [transformTimestampValue, JsVal.falsy, hs]
  | vdate ms => simp [transformTimestampValue, JsVal.falsy]
  | vdatetime d => simp [transformTimestampValue, JsVal.falsy]
  | vnum n =>
    by_cases hn : n = 0 <;> simp [transformTimestampValue, JsVal.falsy, hn]
  | vbool b => cases b <;> simp [transformTimestampValue, JsVal.falsy]
  | vnull => rfl
  | vundef => rfl

/-- Effect of one exec step on the processed column: the stored value is
normalized exactly as `transformTimestampValue` describes. -/
theorem lookupExtra_execStep_same (ex : List (String × JsVal)) (a : String) :
    lookupExtra (execStep ex a) a
      = (lookupExtra ex a).map transformTimestampValue := by
  unfold execStep
  cases hv : lookupExtra ex a with
  | none => simp [hv]
  | some v =>
    by_cases hf : v.falsy
    · simp [hv, hf, transformTimestampValue]
    · cases v with
      | vstr str =>
        simp [hv, hf, lookupExtra_setExtra_same, transformTimestampValue]
      | vdate ms =>
        simp [hv, hf, lookupExtra_setExtra_same, transformTimestampValue]
      | vdatetime d => simp [hv, hf, transformTimestampValue]
      | vnum n => simp [hv, hf, transformTimestampValue]
      | vbool b => simp [hv, hf, transformTimestampValue]
      | vnull => simp [JsVal.falsy] at hf
      | vundef => simp [JsVal.falsy] at hf

/-- One exec step leaves every other column untouched. -/
theorem lookupExtra_execStep_ne (ex : List (String × JsVal)) (a c : String)
    (h : c ≠ a) :
    lookupExtra (execStep ex a) c = lookupExtra ex c := by
  unfold execStep
  cases hv : lookupExtra ex a with
  | none => rfl
  | some v =>
    by_cases hf : v.falsy
    · simp [hf]
    · cases v <;> simp [hf, lookupExtra_setExtra_ne _ _ _ _ h]

/-- Full characterization of the exec row transformer: a column in the
alias list is normalized once (repeat processing is absorbed by
idempotence), every other column is untouched. -/
theorem execTransformRow_lookup (aliases : List String)
    (extras : List (String × JsVal)) (col : String) :
    lookupExtra (execTransformRow aliases extras) col
      = if col ∈ aliases
        then (lookupExtra extras col).map transformTimestampValue
        else lookupExtra extras col := by
  induction aliases generalizing extras with
  | nil => simp [execTransformRow]
  | cons a rest ih =>
    have hfold : execTransformRow (a :: rest) extras
        = execTransformRow rest (execStep extras a) := by
      simp [execTransformRow]
    rw [hfold, ih (execStep extras a)]
    by_cases hca : col = a
    · subst hca
      rw [lookupExtra_execStep_same]
      by_cases hcr : col ∈ rest
      · cases hl : lookupExtra extras col <;>
          simp [hcr, hl, transformTimestampValue_idem]
      · simp [hcr]
    · rw [lookupExtra_execStep_ne _ _ _ hca]
      by_cases hcr : col ∈ rest <;> simp [hcr, hca]

/-- C8: after execution, for every declared pivot timestamp column (via its
alias) of a returned row's extras map: a non-empty string value is replaced
by the datetime parsed from it (`DateTime.fromSQL`), a native date is
converted to the same canonical representation (`DateTime.fromJSDate`),
and an absent or falsy value — or any value that is neither a string nor a
native date — is left unmodified; the transformer is total, so no error is
raised. -/
theorem manyToMany_exec_pivot_timestamps (s : MMState)
    (extras : List (String × JsVal)) (col : String) :
    (lookupExtra (s.execRow extras) col
      = if col ∈ s.relation.pivotTimestamps.map s.relation.pivotAlias
        then (lookupExtra extras col).map transformTimestampValue
        else lookupExtra extras col) ∧
    (∀ str, str ≠ "" →
      transformTimestampValue (JsVal.vstr str)
        = JsVal.vdatetime (DTSource.fromSQL str)) ∧
    (∀ ms, transformTimestampValue (JsVal.vdate ms)
        = JsVal.vdatetime (DTSource.fromJSDate ms)) ∧
    (∀ v, v.falsy = true → transformTimestampValue v = v) ∧
    (∀ v, (∀ str, v ≠ JsVal.vstr str) → (∀ ms, v ≠ JsVal.vdate ms) →
      transformTimestampValue v = v) := by
  refine ⟨execTransformRow_lookup _ extras col, ?_, ?_, ?_, ?_⟩
  · intro str hstr
    simp [transformTimestampValue, JsVal.falsy, hstr]
  · intro ms
    simp [transformTimestampValue, JsVal.falsy]
  · intro v hv
    simp [transformTimestampValue, hv]
  · intro v hstr hdate
    cases v with
    | vstr str => exact absurd rfl (hstr str)
    | vdate ms => exact absurd rfl (hdate ms)
    | vdatetime d => simp [transformTimestampValue, JsVal.falsy]
    | vnum n =>
      by_cases hn : n = 0 <;> simp [transformTimestampValue, JsVal.falsy, hn]
    | vbool b => cases b <;> simp [transformTimestampValue, JsVal.falsy]
    | vnull => rfl
    | vundef => rfl

/-- Witness for C8 on a concrete row: the aliased pivot timestamp string is
parsed, a non-timestamp extra is left alone. -/
theorem manyToMany_exec_pivot_timestamps_witness :
    lookupExtra
        (plainBuilder.execRow
          [("pivot_created_at", JsVal.vstr "2023-01-01 10:00:00"),
           ("pivot_proficiency", JsVal.vstr "expert")])
        "pivot_created_at"
      = some (JsVal.vdatetime (DTSource.fromSQL "2023-01-01 10:00:00")) := by
  have h := (manyToMany_exec_pivot_timestamps plainBuilder
    [("pivot_created_at", JsVal.vstr "2023-01-01 10:00:00"),
     ("pivot_proficiency", JsVal.vstr "expert")] "pivot_created_at").1
  rw [h]
  decide

/-! ## Theorems about associate / dissociate (C3) -/

/-- C3: `associate` runs both persists in one shared transaction: on
success the parent's foreign key equals the related record's primary key
(which the related save guarantees to exist); if either persist fails the
transaction rolls back both writes, the original error propagates, and the
parent's foreign key remains unset. -/
theorem associate_transactional (parent related : ARow) (trx : Nat)
    (newKey : String) (failRelated failParent : Bool)
    (hfk : parent.foreignKey = none) :
    (failRelated = false → failParent = false →
      ∃ parent' related',
        associate parent related trx newKey failRelated failParent
          = ((parent', related'), none) ∧
        parent'.foreignKey = related'.primaryKey ∧
        related'.primaryKey = some (related.primaryKey.getD newKey)) ∧
    (failRelated = true ∨ failParent = true →
      associate parent related trx newKey failRelated failParent
        = ((parent, related), some "persist failed") ∧
      (associate parent related trx newKey failRelated failParent).1.1.foreignKey
        = none) := by
  constructor
  · intro hfr hfp
    subst hfr
    subst hfp
    exact ⟨_, _, rfl, rfl, rfl⟩
  · intro hor
    cases failRelated with
    | true => exact ⟨rfl, hfk⟩
    | false =>
      cases failParent with
      | true => exact ⟨rfl, hfk⟩
      | false =>
        rcases hor with h | h <;> exact absurd h (by simp)

/-- Witness for C3: a saved parent with unset foreign key and an unsaved
related record associate successfully, and the parent's foreign key ends up
equal to the related record's generated primary key. -/
theorem associate_transactional_witness :
    ∃ parent' related',
      associate
          { primaryKey := some "p1", foreignKey := none, trx := none,
            persisted := true }
          { primaryKey := none, foreignKey := none, trx := none,
            persisted := false }
          7 "r9" false false
        = ((parent', related'), none) ∧
      parent'.foreignKey = related'.primaryKey ∧
      related'.primaryKey
        = some ((Option.none (α := String)).getD "r9") :=
  (associate_transactional
    { primaryKey := some "p1", foreignKey := none, trx := none,
      persisted := true }
    { primaryKey := none, foreignKey := none, trx := none,
      persisted := false }
    7 "r9" false false rfl).1 rfl rfl
